import Mathlib

/-!
Verification development for the goswift HTTP toolkit.

The definitions below are a shallow embedding of the Go sources:
  * `router.go` — pattern compilation (`RouteBuilder.Handler`) and route
    resolution (`Router.MatchRoute`),
  * `middleware.go` — `applyMiddleware`,
  * the engine's `ServeHTTP` dispatch,
  * `context.go` — the `responseWriter` facade and `Context.Status`,
  * `sse.go` — the `SSEManager` (`AddClient` / `RemoveClient` / `Broadcast`).

Go maps are modelled as association lists; because Go's map iteration
order is unspecified, functions that iterate over a map (notably
`Router.MatchRoute`) are modelled as functions of a list whose order
represents one possible iteration order, and order-(in)dependence is
stated explicitly in the theorems.  Machine integers that stay small and
non-negative (status codes, byte counts, lengths) are modelled as `Nat`;
the `longestMatchLen` variable of `MatchRoute`, which is initialised to
`-1`, is modelled as `Int`.
-/

namespace GoSwift

/-! ### Pattern compilation (`router.go`, `RouteBuilder.Handler`, lines 72–119)

`Handler` builds the regex string `"^" + items + "/?$"` where every
segment of the pattern contributes one item:
  * a literal segment `s` contributes `"/" + regexp.QuoteMeta(s)`
    (matched verbatim),
  * a parameter segment `:name` or `:name(constraint)` contributes
    `"/" + constraint` with default constraint `"([^/]+)"`,
  * a wildcard segment `*` contributes `"/(.*)"`.
We embed the compiled regex as a list of structured items (`CSeg`) and
give it Go-regexp (leftmost-first, greedy-with-backtracking) matching
semantics directly.  The constraint grammar covered is the
character-class form `([...]+)` / `([^...]+)` actually used by this
repository and its spec (for example `([0-9]+)` and the default
`([^/]+)`); any other constraint string makes compilation fail, which
models the registration-time `panic` on `regexp.Compile` failure. -/

/-- A compiled character class: `items` is a list of inclusive ranges
(a single character `c` is the range `(c, c)`); `neg` marks a `[^...]`
class, which matches exactly the characters covered by no range. -/
structure CClass where
  neg : Bool
  items : List (Char × Char)
deriving DecidableEq, Repr

/-- One item of the compiled route regex, corresponding to one
slash-prefixed chunk of the regex built by `RouteBuilder.Handler`. -/
inductive CSeg where
  | lit (s : String)
  | capture (cl : CClass)
  | wild
deriving DecidableEq, Repr

/-- Parse the body of a character class: a sequence of single characters
and ranges `a-b`. -/
def parseClassItems : List Char → Option (List (Char × Char))
  | [] => some []
  | a :: '-' :: b :: rest => (parseClassItems rest).map (fun r => (a, b) :: r)
  | a :: rest => (parseClassItems rest).map (fun r => (a, a) :: r)

/-- Parse a constraint string of the shape `([...]+)` or `([^...]+)`
into a compiled character class.  Constraint strings outside this
grammar yield `none`, modelling a `regexp.Compile` failure (which
`RouteBuilder.Handler` turns into a registration-time panic). -/
def parseConstraint (cs : List Char) : Option CClass :=
  match cs with
  | '(' :: '[' :: rest =>
    match rest.reverse with
    | ')' :: '+' :: ']' :: bodyRev =>
      match bodyRev.reverse with
      | '^' :: items => (parseClassItems items).map (fun its => ⟨true, its⟩)
      | items => (parseClassItems items).map (fun its => ⟨false, its⟩)
    | _ => none
  | _ => none

/-- Does character `c` match the class? -/
def matchClass (cl : CClass) (c : Char) : Bool :=
  let inSet := cl.items.any (fun p => p.1 ≤ c && c ≤ p.2)
  if cl.neg then !inSet else inSet

/-- Length of the maximal prefix of `cs` consisting of characters that
match the class (the greedy extent of `[...]+`). -/
def classRun (cl : CClass) : List Char → Nat
  | [] => 0
  | c :: cs => if matchClass cl c then classRun cl cs + 1 else 0

/-- If `p` is a prefix of `cs`, return the remainder, else `none`
(verbatim matching of a quoted literal chunk). -/
def dropLit : List Char → List Char → Option (List Char)
  | [], cs => some cs
  | _ :: _, [] => none
  | p :: ps, c :: cs => if c = p then dropLit ps cs else none

/-- Backtracking driver for a one-or-more quantifier: try capture
lengths `n, n-1, …, 1` (greedy first, as Go's regexp submatch semantics
prescribe); length `0` is not tried because `+` requires at least one
character. -/
def tryLens (f : Nat → Option (List String)) : Nat → Option (List String)
  | 0 => none
  | n + 1 =>
    match f (n + 1) with
    | some r => some r
    | none => tryLens f n

/-- Backtracking driver for `(.*)`: try capture lengths `n, …, 1, 0`. -/
def tryLensZ (f : Nat → Option (List String)) : Nat → Option (List String)
  | 0 => f 0
  | n + 1 =>
    match f (n + 1) with
    | some r => some r
    | none => tryLensZ f n

/-- Matching semantics of the compiled regex `"^" + items + "/?$"`
against a path, returning the list of captured submatches in order
(`FindStringSubmatch` with the leading full match dropped).  Matching is
anchored at both ends; after the last item an optional trailing slash is
accepted (`"/?$"`). -/
def matchItems : List CSeg → List Char → Option (List String)
  | [], cs =>
    match cs with
    | [] => some []
    | ['/'] => some []
    | _ => none
  | CSeg.lit s :: rest, cs =>
    match cs with
    | '/' :: cs' =>
      match dropLit s.data cs' with
      | some cs'' => matchItems rest cs''
      | none => none
    | _ => none
  | CSeg.capture cl :: rest, cs =>
    match cs with
    | '/' :: cs' =>
      tryLens
        (fun k => (matchItems rest (cs'.drop k)).map
          (fun caps => String.mk (cs'.take k) :: caps))
        (classRun cl cs')
    | _ => none
  | CSeg.wild :: rest, cs =>
    match cs with
    | '/' :: cs' =>
      tryLensZ
        (fun k => (matchItems rest (cs'.drop k)).map
          (fun caps => String.mk (cs'.take k) :: caps))
        cs'.length
    | _ => none

/-- `strings.Split(pattern, "/")` on the character list. -/
def splitSlash : List Char → List (List Char)
  | [] => [[]]
  | '/' :: rest => [] :: splitSlash rest
  | c :: rest =>
    match splitSlash rest with
    | [] => [[c]]
    | p :: ps => (c :: p) :: ps

/-- The loop body of `RouteBuilder.Handler` (lines 78–98): turn the
split pattern parts into compiled regex items and the ordered parameter
name list.  Parts are examined in the source order of the Go `for`
loop: `:`-prefixed parts become captures (splitting off a `(...)`
constraint when present, default constraint `([^/]+)`), a `*` part
becomes the wildcard (parameter name `"wildcard"`), empty parts are
skipped, and anything else is a quoted literal. -/
def compileParts : List (List Char) → Option (List CSeg × List String)
  | [] => some ([], [])
  | part :: restParts =>
    match compileParts restParts with
    | none => none
    | some (segs, names) =>
      match part with
      | ':' :: pn =>
        let paramName := pn.takeWhile (fun c => !(c = '('))
        let constraintPart := pn.dropWhile (fun c => !(c = '('))
        let constraint :=
          if constraintPart.isEmpty then ('(' :: '[' :: '^' :: '/' :: ']' :: '+' :: [')'])
          else constraintPart
        match parseConstraint constraint with
        | none => none
        | some cl => some (CSeg.capture cl :: segs, String.mk paramName :: names)
      | ['*'] => some (CSeg.wild :: segs, "wildcard" :: names)
      | [] => some (segs, names)
      | _ => some (CSeg.lit (String.mk part) :: segs, names)

/-! ### Routes and `Router.MatchRoute` (`router.go`, lines 10–21 and 121–169) -/

/-- `route` (router.go lines 10–21): handler, original pattern string,
route-specific `before`/`after` middleware, compiled regex and ordered
parameter names.  The handler type is a parameter `α` so that the same
definition serves both decidable router theorems (handlers as labels)
and the dispatch layer (handlers as functions). -/
structure Route (α : Type) where
  handler : α
  pattern : String
  before : List (α → α)
  after : List (α → α)
  segs : List CSeg
  paramNames : List String

/-- `RouteBuilder.Handler` (lines 72–119): compile the pattern and
produce the stored route; `none` models the registration-time panic on
an invalid constraint regex. -/
def mkRoute {α : Type} (pattern : String) (handler : α)
    (before after : List (α → α)) : Option (Route α) :=
  match compileParts (splitSlash pattern.data) with
  | none => none
  | some (segs, names) => some ⟨handler, pattern, before, after, segs, names⟩

/-- `applyMiddleware` (middleware.go lines 22–28): apply the middleware
list in reverse order, so the first element of the list ends up
outermost. -/
def applyMiddleware {α : Type} (handler : α) (middleware : List (α → α)) : α :=
  middleware.foldr (fun m h => m h) handler

/-- The chained handler built inside `MatchRoute` (lines 158–163):
`after` middleware wraps the handler first, then `before` middleware
wraps that. -/
def chainRoute {α : Type} (rt : Route α) : α :=
  applyMiddleware (applyMiddleware rt.handler rt.after) rt.before

/-- The mutable state of `MatchRoute`'s selection loop
(`bestMatchHandler`/`bestMatchParams` as one option, and
`longestMatchLen`, initialised to `-1`). -/
structure MatchSt (α : Type) where
  best : Option (α × List (String × String))
  longest : Int

/-- One iteration of `MatchRoute`'s loop (lines 133–165): try the
compiled regex; on a match build the parameter map by pairing parameter
names with the capture groups, and adopt this route as the best match
iff its pattern string is strictly longer than the best so far. -/
def mrStep {α : Type} (path : String) (s : MatchSt α) (rt : Route α) : MatchSt α :=
  match matchItems rt.segs path.data with
  | none => s
  | some caps =>
    let params := rt.paramNames.zip caps
    if (rt.pattern.length : Int) > s.longest then
      { best := some (chainRoute rt, params), longest := (rt.pattern.length : Int) }
    else s

/-- `Router.MatchRoute` for one method (lines 129–168), as a function of
one iteration order of the method's route map: fold the selection loop
over the routes and return the best match (the chained handler and the
extracted parameters), or `none`. -/
def MatchRoute {α : Type} (routes : List (Route α)) (path : String) :
    Option (α × List (String × String)) :=
  (routes.foldl (mrStep path) ⟨none, -1⟩).best

/-- Does route `rt` match `path` (its compiled regex accepts the path)? -/
def matchesR {α : Type} (path : String) (rt : Route α) : Bool :=
  (matchItems rt.segs path.data).isSome

/-- The method-indexed route table lookup at the top of `MatchRoute`
(lines 124–127): the router maps methods to route sets; an unknown
method yields no match. -/
def MatchRouteM {α : Type} (router : List (String × List (Route α)))
    (method path : String) : Option (α × List (String × String)) :=
  match router.find? (fun p => p.1 == method) with
  | none => none
  | some p => MatchRoute p.2 path

/-! ### Dispatch (`ServeHTTP`, part_000 lines 299–323) and middleware

Handlers in Go have type `func(*Context) error` and act on a mutable
context; we model the observable context state explicitly (the ordered
list of side effects performed so far plus the path parameters seeded by
the router) and a handler as a state transformer returning the error it
hands back up the chain. -/

/-- `HTTPError` (errors.go lines 10–14), without the wrapped lower-level
cause, which no claim observes (it is only logged). -/
structure HTTPError where
  statusCode : Nat
  message : String
deriving DecidableEq, Repr

/-- Observable per-request context state: the ordered trace of side
effects performed by middleware and handlers, and the path parameters
set by `c.SetPathParams`. -/
structure Ctx where
  events : List String
  pathParams : List (String × String)
deriving DecidableEq, Repr

/-- `HandlerFunc`: a handler transforms the context and returns an
optional error. -/
def HandlerFunc : Type := Ctx → Ctx × Option HTTPError

/-- `MiddlewareFunc` (middleware.go line 19): takes the next handler and
returns a new handler. -/
def MiddlewareFunc : Type := HandlerFunc → HandlerFunc

/-- `Engine.ServeHTTP` (part_000 lines 299–323): build a fresh context,
resolve the route, seed the path parameters; if no handler was found,
hand `NewHTTPError(404, "Not Found")` straight to the error handler;
otherwise wrap the (route-chained) handler in the global middleware and
invoke it once, handing any returned error to the error handler.  The
returned pair is the final context and the error delivered to the
error-reporting boundary (`none` when the request succeeded). -/
def ServeHTTP (router : List (String × List (Route HandlerFunc)))
    (globalMW : List (HandlerFunc → HandlerFunc)) (method path : String) :
    Ctx × Option HTTPError :=
  match MatchRouteM router method path with
  | none =>
    let c : Ctx := { events := [], pathParams := [] }
    (c, some ⟨404, "Not Found"⟩)
  | some (handler, params) =>
    let c : Ctx := { events := [], pathParams := params }
    let finalHandler := applyMiddleware handler globalMW
    finalHandler c

/-- A middleware unit with a pre-`next` effect and a post-`next` effect,
the generic shape of `LoggerMiddleware`-style wrappers. -/
def wrapUnit (pre post : String) : MiddlewareFunc :=
  fun next => fun c =>
    match next { c with events := c.events ++ [pre] } with
    | (c1, e) => ({ c1 with events := c1.events ++ [post] }, e)

/-- An "after" middleware unit: it calls `next` first and performs its
effect afterwards (the idiomatic shape of a route-level `After`
middleware). -/
def afterUnit (e : String) : MiddlewareFunc :=
  fun next => fun c =>
    match next c with
    | (c1, r) => ({ c1 with events := c1.events ++ [e] }, r)

/-- A terminal handler that performs one effect and succeeds. -/
def handlerUnit (e : String) : HandlerFunc :=
  fun c => ({ c with events := c.events ++ [e] }, none)

/-! ### The response-writing facade (`context.go` lines 41–65)

`responseWriter` wraps the transport's `http.ResponseWriter`; its Go
zero value has `status = 0` and `size = 0` (as built by `newContext`).
`Write` forwards to the underlying writer — which, absent transport
errors, accepts the whole buffer — and adds the written size to `size`;
`WriteHeader` stores the status code.  `Context.Status` returns 200 when
no status was stored. -/

structure responseWriter where
  status : Nat
  size : Nat
deriving DecidableEq, Repr

/-- The writer as created by `newContext` (Go zero values). -/
def newResponseWriter : responseWriter := ⟨0, 0⟩

/-- `responseWriter.WriteHeader` (context.go lines 48–51): store the
status code (each call overwrites the field). -/
def WriteHeader (rw : responseWriter) (statusCode : Nat) : responseWriter :=
  { rw with status := statusCode }

/-- `responseWriter.Write` (context.go lines 53–57): the underlying
writer reports the written size, which is accumulated into `size`. -/
def Write (rw : responseWriter) (b : String) : responseWriter :=
  { rw with size := rw.size + b.length }

/-- `Context.Status` (context.go lines 60–65). -/
def Status (rw : responseWriter) : Nat :=
  if rw.status = 0 then 200 else rw.status

/-- One call on the response-writing facade. -/
inductive WriterOp where
  | header (statusCode : Nat)
  | body (b : String)
deriving DecidableEq, Repr

/-- Run a sequence of facade calls. -/
def runWriter : responseWriter → List WriterOp → responseWriter
  | rw, [] => rw
  | rw, WriterOp.header s :: ops => runWriter (WriteHeader rw s) ops
  | rw, WriterOp.body b :: ops => runWriter (Write rw b) ops

/-- The status stored after a call sequence starting from stored value
`s`: the argument of the last `WriteHeader` call, or `s` if there was
none. -/
def lastHeaderStatusFrom (s : Nat) : List WriterOp → Nat
  | [] => s
  | WriterOp.header n :: ops => lastHeaderStatusFrom n ops
  | WriterOp.body _ :: ops => lastHeaderStatusFrom s ops

/-- The argument of the last `WriteHeader` call of the sequence, or `0`
if there was none. -/
def lastHeaderStatus (ops : List WriterOp) : Nat :=
  lastHeaderStatusFrom 0 ops

/-- Total number of bytes passed to `Write` over a call sequence. -/
def totalBytes : List WriterOp → Nat
  | [] => 0
  | WriterOp.header _ :: ops => totalBytes ops
  | WriterOp.body b :: ops => b.length + totalBytes ops

/-- Does the call sequence contain no `WriteHeader` call? -/
def noHeaderCall (ops : List WriterOp) : Bool :=
  ops.all (fun op => match op with | WriterOp.header _ => false | WriterOp.body _ => true)

/-! ### The SSE broadcaster (`sse.go`)

`SSEManager.clients` is `map[documentID]map[clientID]SSEClient`; each
client owns a buffered channel of capacity 5.  We model the registry as
a nested association list mapping the document id to the client map, and
each client's channel by its queued contents (a FIFO list bounded by the
capacity).  Association lists with pairwise distinct keys model Go maps
exactly; `nodupKeys` states that invariant. -/

/-- Go map read `m[k]`. -/
def mapGet {β : Type} : List (String × β) → String → Option β
  | [], _ => none
  | p :: t, k => if p.1 = k then some p.2 else mapGet t k

/-- Go map write `m[k] = v` (overwrites an existing binding). -/
def mapSet {β : Type} : List (String × β) → String → β → List (String × β)
  | [], k, v => [(k, v)]
  | p :: t, k, v => if p.1 = k then (k, v) :: t else p :: mapSet t k v

/-- Go map `delete(m, k)` (on a list with distinct keys, removing the
first occurrence removes the binding). -/
def mapErase {β : Type} : List (String × β) → String → List (String × β)
  | [], _ => []
  | p :: t, k => if p.1 = k then t else p :: mapErase t k

/-- Pairwise distinct keys (the association list represents a map). -/
def nodupKeys {β : Type} : List (String × β) → Bool
  | [] => true
  | p :: t => !(t.any (fun q => q.1 == p.1)) && nodupKeys t

/-- The topic registry: documentID → (clientID → queued messages). -/
def SSEState : Type := List (String × List (String × List String))

/-- `NewSSEManager` (sse.go lines 25–30): an empty registry. -/
def newSSEManager : SSEState := []

/-- The client channel capacity fixed by `AddClient`
(`make(chan string, 5)`, sse.go line 41). -/
def chanCap : Nat := 5

/-- `SSEManager.AddClient` (sse.go lines 33–44, state-relevant part):
create the topic's client map if absent, then register the client under
it with a fresh empty queue of capacity `chanCap`. -/
def AddClient (sm : SSEState) (docID clientID : String) : SSEState :=
  let docClients := (mapGet sm docID).getD []
  mapSet sm docID (mapSet docClients clientID [])

/-- `SSEManager.RemoveClient` (sse.go lines 84–97): if the topic and the
client exist, close and delete the client; if the topic's client map
became empty, delete the topic entry itself. -/
def RemoveClient (sm : SSEState) (docID clientID : String) : SSEState :=
  match mapGet sm docID with
  | none => sm
  | some docClients =>
    match mapGet docClients clientID with
    | none => sm
    | some _ =>
      let docClients' := mapErase docClients clientID
      if docClients'.length = 0 then mapErase sm docID
      else mapSet sm docID docClients'

/-- The non-blocking send of `Broadcast` (sse.go lines 106–113): a
`select` with a `default` branch on a buffered channel enqueues when the
buffer has room and otherwise leaves the channel contents unchanged
(the message is dropped for that client and the drop is logged). -/
def trySend (q : List String) (message : String) : List String :=
  if q.length < chanCap then q ++ [message] else q

/-- `SSEManager.Broadcast` (sse.go lines 100–116): attempt the
non-blocking send to every client registered under the topic; other
topics are untouched.  (The Go loop iterates the client map and sends
into each client's channel; the per-client updates are independent, so
the iteration order is irrelevant.) -/
def Broadcast (sm : SSEState) (docID message : String) : SSEState :=
  match mapGet sm docID with
  | none => sm
  | some docClients =>
    mapSet sm docID (docClients.map (fun cl => (cl.1, trySend cl.2 message)))

/-- The queue registered for `clientID` under `docID`, if any. -/
def clientQueue (sm : SSEState) (docID clientID : String) : Option (List String) :=
  match mapGet sm docID with
  | none => none
  | some docClients => mapGet docClients clientID

/-- The registry invariant: distinct topic keys; every present topic has
a non-empty client map with distinct client keys. -/
def wfSSE (sm : SSEState) : Bool :=
  nodupKeys sm && sm.all (fun p => !p.2.isEmpty && nodupKeys p.2)

/-- `Broadcast` folded over a message sequence (one `Publish` per
message, in order). -/
def BroadcastList (sm : SSEState) (docID : String) (msgs : List String) : SSEState :=
  msgs.foldl (fun m msg => Broadcast m docID msg) sm

/-! ## Theorems -/

/-! ### Claims C1 and C4: route selection on concrete routers -/

/-- Claim C1, counterexample.  `/docs/:id` and `/docs/new` are both
9 characters long, so `MatchRoute`'s strict "longer pattern wins" test
never replaces whichever of the two routes the map iteration visits
first.  Under the iteration order that visits `/docs/:id` first —
a legitimate order for a Go map, whose iteration order is unspecified —
resolving `/docs/new` selects the parameterized route (handler `1`,
with binding `id ↦ "new"`), not the literal route (handler `2`), so the
claim's "never the parameterized one" is false on the code. -/
theorem docsNew_param_route_can_win :
    ((mkRoute "/docs/:id" (1 : Nat) [] []).bind (fun rId =>
      (mkRoute "/docs/new" (2 : Nat) [] []).map (fun rNew =>
        MatchRoute [rId, rNew] "/docs/new")))
      = some (some (1, [("id", "new")]))
    ∧ (1 : Nat) ≠ 2
    ∧ "/docs/:id".length = "/docs/new".length := by decide

/-- Claim C1, amended.  The literal route `/docs/new` is selected
exactly when the map iteration happens to visit it before `/docs/:id`;
since the two pattern strings have equal length, the length tie-break
cannot prefer the literal route, and the selection depends on the
unspecified iteration order. -/
theorem docsNew_literal_route_wins_when_visited_first :
    ((mkRoute "/docs/:id" (1 : Nat) [] []).bind (fun rId =>
      (mkRoute "/docs/new" (2 : Nat) [] []).map (fun rNew =>
        MatchRoute [rNew, rId] "/docs/new")))
      = some (some (2, [])) := by decide

/-- Claim C4: registering `/users/:id` and resolving `/users/42` yields
the route's handler with bindings `{id ↦ "42"}`; registering only the
constrained `/users/:id([0-9]+)` and resolving `/users/abc` yields no
match. -/
theorem param_extraction_round_trip :
    ((mkRoute "/users/:id" (1 : Nat) [] []).map (fun r =>
        MatchRoute [r] "/users/42"))
      = some (some (1, [("id", "42")]))
    ∧ ((mkRoute "/users/:id([0-9]+)" (1 : Nat) [] []).map (fun r =>
        MatchRoute [r] "/users/abc"))
      = some none := by decide

/-! ### Claims C7 and C10: the response-writing facade -/

/-- `runWriter` computes the last stored status and accumulates the
written byte count. -/
theorem runWriter_eq (ops : List WriterOp) (rw : responseWriter) :
    runWriter rw ops =
      ⟨lastHeaderStatusFrom rw.status ops, rw.size + totalBytes ops⟩ := by
  induction ops generalizing rw with
  | nil => simp [runWriter, lastHeaderStatusFrom, totalBytes]
  | cons op ops ih =>
    cases op with
    | header s =>
      simp [runWriter, lastHeaderStatusFrom, totalBytes, ih, WriteHeader]
    | body b =>
      simp [runWriter, lastHeaderStatusFrom, totalBytes, ih, Write]
      omega

/-- Claim C7, counterexample.  After `WriteHeader(201)` followed by
`WriteHeader(404)`, `Status()` reports `404`, not the first status
`201`: the facade records the most recent status code, not the first
one. -/
theorem status_records_last_not_first :
    Status (runWriter newResponseWriter
      [WriterOp.header 201, WriterOp.header 404]) = 404
    ∧ (404 : Nat) ≠ 201 := by decide

/-- Claim C7, amended: for every call sequence on a fresh writer, the
recorded status is the argument of the *most recent* `WriteHeader` call
(or the zero value if none), and the recorded size is the cumulative
total of bytes written across all `Write` calls. -/
theorem writer_records_last_status_and_total_bytes (ops : List WriterOp) :
    (runWriter newResponseWriter ops).status = lastHeaderStatus ops
    ∧ (runWriter newResponseWriter ops).size = totalBytes ops := by
  rw [runWriter_eq]
  exact ⟨rfl, by simp [newResponseWriter]⟩

/-- The stored status is untouched by a sequence without `WriteHeader`
calls. -/
theorem runWriter_status_of_noHeader (ops : List WriterOp)
    (h : noHeaderCall ops = true) (rw : responseWriter) :
    (runWriter rw ops).status = rw.status := by
  induction ops generalizing rw with
  | nil => rfl
  | cons op ops ih =>
    cases op with
    | header s => simp [noHeaderCall] at h
    | body b =>
      simp [noHeaderCall] at h
      simpa [runWriter, Write] using ih (by simpa [noHeaderCall] using h) _

/-- Claim C10: if `WriteHeader` was never called, `Status()` returns
`200` (`http.StatusOK`), not zero. -/
theorem status_defaults_to_200 (ops : List WriterOp)
    (h : noHeaderCall ops = true) :
    Status (runWriter newResponseWriter ops) = 200 := by
  have hs := runWriter_status_of_noHeader ops h newResponseWriter
  simp [newResponseWriter] at hs ⊢
  simp [Status, hs]

/-- Witness for claim C10: a sequence of two `Write` calls and no
`WriteHeader` call reports status 200. -/
theorem status_defaults_to_200_witness :
    Status (runWriter newResponseWriter
      [WriterOp.body "hello", WriterOp.body " world"]) = 200 :=
  status_defaults_to_200 [WriterOp.body "hello", WriterOp.body " world"] (by decide)

/-! ### Claims C5 and C6: the dispatch pipeline -/

/-- A route on pattern `/x` whose handler performs effect `h`, with one
route-level before middleware (`b1` before `next`, `b2` after) and one
route-level after middleware performing `a` once the handler returns,
registered via `RouteBuilder`. -/
def demoRoute (b1 b2 a h : String) : Route HandlerFunc :=
  (mkRoute "/x" (handlerUnit h) [wrapUnit b1 b2] [afterUnit a]).getD
    ⟨handlerUnit h, "/x", [], [], [], []⟩

/-- Claim C5: for every global unit `G` (pre-effect `g1`, post-effect
`g2`), route-before unit `B` (`b1`/`b2`), route-after unit `A` (effect
`a`) and handler `H` (effect `h`), the chain composed by dispatch —
after-middleware around the handler, before-middleware around that
(`MatchRoute` lines 158–163), global middleware outermost
(`ServeHTTP` line 317) — runs the effects in the order
`g1, b1, h, a, b2, g2`: strict nesting with global outermost, and
innermost-first completion. -/
theorem middleware_ordering (g1 g2 b1 b2 a h : String) :
    ServeHTTP [("GET", [demoRoute b1 b2 a h])] [wrapUnit g1 g2] "GET" "/x"
      = ({ events := [g1, b1, h, a, b2, g2], pathParams := [] }, none) := by
  rfl

/-- Claim C6: whenever `(method, path)` resolves to no route,
`ServeHTTP` hands `NewHTTPError(404, "Not Found")` directly to the
error-reporting boundary and the final context shows no recorded effect
from any middleware unit — the middleware chain (global, group or
route-level, all quantified here) is never composed or invoked. -/
theorem not_found_skips_middleware
    (router : List (String × List (Route HandlerFunc)))
    (globalMW : List (HandlerFunc → HandlerFunc)) (method path : String)
    (hnone : MatchRouteM router method path = none) :
    ServeHTTP router globalMW method path
      = ({ events := [], pathParams := [] }, some ⟨404, "Not Found"⟩) := by
  simp only [ServeHTTP, hnone]

/-- Witness for claim C6: a router with one registered route (carrying
route middleware) and a global middleware unit, on a path matching
nothing: the 404 reaches the boundary with an empty effect trace. -/
theorem not_found_skips_middleware_witness :
    ServeHTTP [("GET", [demoRoute "b1" "b2" "a" "h"])]
      [wrapUnit "g1" "g2"] "GET" "/nope"
      = ({ events := [], pathParams := [] }, some ⟨404, "Not Found"⟩) :=
  not_found_skips_middleware _ _ _ _ rfl

/-! ### Claims C2 and C3: the selection loop of `MatchRoute`

The lemmas analyse the fold over `mrStep`: one loop iteration either
leaves the selection state unchanged or adopts the current route
(`mrStep_cases`); `longestMatchLen` never decreases and ends up at
least as large as every matching route's pattern length
(`foldl_longest_le`, `foldl_longest_ub`); and the final state is either
the initial one or the adopted data of some matching route of the list
(`foldl_mrStep_sound`). -/

theorem mrStep_adopt {α : Type} (path : String) (s : MatchSt α) (rt : Route α)
    (caps : List String) (hcaps : matchItems rt.segs path.data = some caps)
    (hlt : s.longest < (rt.pattern.length : Int)) :
    mrStep path s rt =
      ⟨some (chainRoute rt, rt.paramNames.zip caps), (rt.pattern.length : Int)⟩ := by
  simp only [mrStep, hcaps, gt_iff_lt, hlt, if_true]

theorem mrStep_keep {α : Type} (path : String) (s : MatchSt α) (rt : Route α)
    (h : ¬ s.longest < (rt.pattern.length : Int)) :
    mrStep path s rt = s := by
  unfold mrStep
  cases hc : matchItems rt.segs path.data with
  | none => rfl
  | some caps => simp only [gt_iff_lt, h, if_false]

theorem mrStep_cases {α : Type} (path : String) (s : MatchSt α) (rt : Route α) :
    mrStep path s rt = s ∨
    ∃ caps, matchItems rt.segs path.data = some caps ∧
      s.longest < (rt.pattern.length : Int) ∧
      mrStep path s rt =
        ⟨some (chainRoute rt, rt.paramNames.zip caps), (rt.pattern.length : Int)⟩ := by
  cases hc : matchItems rt.segs path.data with
  | none =>
    refine Or.inl ?_
    unfold mrStep
    rw [hc]
  | some caps =>
    by_cases hlen : s.longest < (rt.pattern.length : Int)
    · exact Or.inr ⟨caps, rfl, hlen, mrStep_adopt path s rt caps hc hlen⟩
    · exact Or.inl (mrStep_keep path s rt hlen)

theorem mrStep_longest_le {α : Type} (path : String) (s : MatchSt α) (rt : Route α) :
    s.longest ≤ (mrStep path s rt).longest := by
  rcases mrStep_cases path s rt with h | ⟨caps, _, hlt, h⟩
  · rw [h]
  · rw [h]
    exact le_of_lt hlt

theorem foldl_longest_le {α : Type} (path : String) (l : List (Route α)) (s : MatchSt α) :
    s.longest ≤ (l.foldl (mrStep path) s).longest := by
  induction l generalizing s with
  | nil => exact le_refl _
  | cons a t ih =>
    exact le_trans (mrStep_longest_le path s a) (ih (mrStep path s a))

theorem foldl_longest_ub {α : Type} (path : String) :
    ∀ (l : List (Route α)) (s : MatchSt α) (rt : Route α),
      rt ∈ l → matchesR path rt = true →
      (rt.pattern.length : Int) ≤ (l.foldl (mrStep path) s).longest := by
  intro l
  induction l with
  | nil => intro s rt hmem _; cases hmem
  | cons a t ih =>
    intro s rt hmem hm
    rw [List.foldl_cons]
    rcases List.mem_cons.mp hmem with rfl | hmem'
    · refine le_trans ?_ (foldl_longest_le path t (mrStep path s rt))
      by_cases hlen : s.longest < (rt.pattern.length : Int)
      · obtain ⟨caps, hcaps⟩ := Option.isSome_iff_exists.mp (by simpa [matchesR] using hm)
        rw [mrStep_adopt path s rt caps hcaps hlen]
      · rw [mrStep_keep path s rt hlen]
        omega
    · exact ih (mrStep path s a) rt hmem' hm

theorem foldl_mrStep_sound {α : Type} (path : String) (l : List (Route α)) (s : MatchSt α) :
    l.foldl (mrStep path) s = s ∨
    ∃ rt ∈ l, ∃ caps, matchItems rt.segs path.data = some caps ∧
      l.foldl (mrStep path) s =
        ⟨some (chainRoute rt, rt.paramNames.zip caps), (rt.pattern.length : Int)⟩ := by
  induction l generalizing s with
  | nil => exact Or.inl rfl
  | cons a t ih =>
    rw [List.foldl_cons]
    rcases mrStep_cases path s a with ha | ⟨caps, hcaps, _, ha⟩
    · rw [ha]
      rcases ih s with hid | ⟨rt, hmem, caps, hcaps, heq⟩
      · exact Or.inl hid
      · exact Or.inr ⟨rt, List.mem_cons_of_mem a hmem, caps, hcaps, heq⟩
    · rw [ha]
      rcases ih (⟨some (chainRoute a, a.paramNames.zip caps), (a.pattern.length : Int)⟩ :
          MatchSt α) with hid | ⟨rt, hmem, caps', hcaps', heq⟩
      · exact Or.inr ⟨a, List.mem_cons_self a t, caps, hcaps, hid⟩
      · exact Or.inr ⟨rt, List.mem_cons_of_mem a hmem, caps', hcaps', heq⟩

theorem foldl_mrStep_no_improve {α : Type} (path : String) (l : List (Route α))
    (s : MatchSt α)
    (hub : ∀ rt ∈ l, matchesR path rt = true → (rt.pattern.length : Int) ≤ s.longest) :
    l.foldl (mrStep path) s = s := by
  induction l with
  | nil => rfl
  | cons a t ih =>
    rw [List.foldl_cons]
    have ha : mrStep path s a = s := by
      cases hc : matchItems a.segs path.data with
      | none =>
        unfold mrStep
        rw [hc]
      | some caps =>
        have := hub a (List.mem_cons_self a t) (by simp [matchesR, hc])
        exact mrStep_keep path s a (by omega)
    rw [ha]
    exact ih (fun rt h hm => hub rt (List.mem_cons_of_mem a h) hm)

/-- If no registered route matches, `MatchRoute` reports no match. -/
theorem MatchRoute_eq_none {α : Type} (l : List (Route α)) (path : String)
    (hnone : ∀ rt ∈ l, matchesR path rt = false) :
    MatchRoute l path = none := by
  unfold MatchRoute
  rw [foldl_mrStep_no_improve path l ⟨none, -1⟩
    (fun rt h hm => absurd hm (by simp [hnone rt h]))]

/-- Among the matching routes of a list there is one with maximal
pattern length. -/
theorem exists_max_matching {α : Type} (path : String) :
    ∀ l : List (Route α), (∃ rt ∈ l, matchesR path rt = true) →
      ∃ mx ∈ l, matchesR path mx = true ∧
        ∀ rt ∈ l, matchesR path rt = true → rt.pattern.length ≤ mx.pattern.length := by
  intro l
  induction l with
  | nil => rintro ⟨rt, h, -⟩; cases h
  | cons a t ih =>
    rintro ⟨rt, hrt, hm⟩
    by_cases hat : ∃ rt' ∈ t, matchesR path rt' = true
    · obtain ⟨mx, hmx, hmxm, hmax⟩ := ih hat
      by_cases hac : matchesR path a = true
      · by_cases hle : a.pattern.length ≤ mx.pattern.length
        · refine ⟨mx, List.mem_cons_of_mem a hmx, hmxm, ?_⟩
          rintro rt' hrt' hm'
          rcases List.mem_cons.mp hrt' with rfl | h'
          · exact hle
          · exact hmax rt' h' hm'
        · refine ⟨a, List.mem_cons_self a t, hac, ?_⟩
          rintro rt' hrt' hm'
          rcases List.mem_cons.mp hrt' with rfl | h'
          · exact le_refl _
          · exact le_trans (hmax rt' h' hm') (le_of_not_le hle)
      · refine ⟨mx, List.mem_cons_of_mem a hmx, hmxm, ?_⟩
        rintro rt' hrt' hm'
        rcases List.mem_cons.mp hrt' with rfl | h'
        · exact absurd hm' hac
        · exact hmax rt' h' hm'
    · have hac : matchesR path a = true := by
        rcases List.mem_cons.mp hrt with rfl | h'
        · exact hm
        · exact absurd ⟨rt, h', hm⟩ hat
      refine ⟨a, List.mem_cons_self a t, hac, ?_⟩
      rintro rt' hrt' hm'
      rcases List.mem_cons.mp hrt' with rfl | h'
      · exact le_refl _
      · exact absurd ⟨rt', h', hm'⟩ hat

/-- The central selection lemma: when the matching routes of the list
have pairwise distinct pattern lengths, `MatchRoute` selects exactly
the matching route of maximal pattern length — wherever it sits in the
iteration order. -/
theorem MatchRoute_eq_of_max {α : Type} (l : List (Route α)) (path : String)
    (mx : Route α) (caps : List String)
    (hmem : mx ∈ l)
    (hcaps : matchItems mx.segs path.data = some caps)
    (hmax : ∀ rt ∈ l, matchesR path rt = true → rt.pattern.length ≤ mx.pattern.length)
    (hnd : ((l.filter (matchesR path)).map (fun rt => rt.pattern.length)).Nodup) :
    MatchRoute l path = some (chainRoute mx, mx.paramNames.zip caps) := by
  obtain ⟨l₁, l₂, rfl⟩ := List.append_of_mem hmem
  have hmxm : matchesR path mx = true := by simp [matchesR, hcaps]
  -- the fold over the prefix cannot reach `mx`'s pattern length
  have hlt : (l₁.foldl (mrStep path) ⟨none, -1⟩).longest < (mx.pattern.length : Int) := by
    rcases foldl_mrStep_sound path l₁ ⟨none, -1⟩ with hid | ⟨rt, hmem₁, caps₁, hcaps₁, heq⟩
    · rw [hid]
      show (-1 : Int) < (mx.pattern.length : Int)
      omega
    · rw [heq]
      show (rt.pattern.length : Int) < (mx.pattern.length : Int)
      have hle : rt.pattern.length ≤ mx.pattern.length :=
        hmax rt (List.mem_append.mpr (Or.inl hmem₁)) (by simp [matchesR, hcaps₁])
      have hne : rt.pattern.length ≠ mx.pattern.length := by
        intro hcontra
        have hsplit : (l₁ ++ mx :: l₂).filter (matchesR path)
            = l₁.filter (matchesR path) ++ mx :: l₂.filter (matchesR path) := by
          rw [List.filter_append, List.filter_cons_of_pos hmxm]
        rw [hsplit, List.map_append, List.map_cons] at hnd
        have hdisj := List.disjoint_of_nodup_append hnd
        have hmem_left : mx.pattern.length ∈
            (l₁.filter (matchesR path)).map (fun rt => rt.pattern.length) := by
          rw [← hcontra]
          exact List.mem_map_of_mem _
            (List.mem_filter.mpr ⟨hmem₁, by simp [matchesR, hcaps₁]⟩)
        exact hdisj hmem_left (List.mem_cons_self _ _)
      omega
  -- processing `mx` adopts it, and the suffix cannot improve on it
  unfold MatchRoute
  rw [List.foldl_append, List.foldl_cons,
    mrStep_adopt path _ mx caps hcaps hlt,
    foldl_mrStep_no_improve path l₂ _ (fun rt h hm => by
      have := hmax rt (List.mem_append.mpr (Or.inr (List.mem_cons_of_mem _ h))) hm
      show (rt.pattern.length : Int) ≤ (mx.pattern.length : Int)
      omega)]

/-- Claim C3: whenever `MatchRoute` reports a match, the selected route
is a registered route whose compiled matcher accepts the path, the
returned handler and parameter bindings are that route's, and its raw
pattern string length is greatest among all matching routes; moreover a
match is reported as soon as any registered route matches. -/
theorem MatchRoute_selects_longest {α : Type} (routes : List (Route α)) (path : String) :
    (∀ rt ∈ routes, matchesR path rt = true → (MatchRoute routes path).isSome = true)
    ∧ ∀ h ps, MatchRoute routes path = some (h, ps) →
        ∃ rt ∈ routes, ∃ caps,
          matchItems rt.segs path.data = some caps ∧
          h = chainRoute rt ∧ ps = rt.paramNames.zip caps ∧
          ∀ rt' ∈ routes, matchesR path rt' = true →
            rt'.pattern.length ≤ rt.pattern.length := by
  constructor
  · intro rt hmem hm
    have hub := foldl_longest_ub path routes ⟨none, -1⟩ rt hmem hm
    rcases foldl_mrStep_sound path routes ⟨none, -1⟩ with hid | ⟨rt', _, caps, _, heq⟩
    · exfalso
      rw [hid] at hub
      have : (rt.pattern.length : Int) ≤ -1 := hub
      omega
    · unfold MatchRoute
      rw [heq]
      rfl
  · intro h ps hres
    rcases foldl_mrStep_sound path routes ⟨none, -1⟩ with hid | ⟨rt, hmem, caps, hcaps, heq⟩
    · unfold MatchRoute at hres
      rw [hid] at hres
      cases hres
    · unfold MatchRoute at hres
      rw [heq] at hres
      obtain ⟨rfl, rfl⟩ : chainRoute rt = h ∧ rt.paramNames.zip caps = ps := by
        cases hres
        exact ⟨rfl, rfl⟩
      refine ⟨rt, hmem, caps, hcaps, rfl, rfl, ?_⟩
      intro rt' hmem' hm'
      have hub := foldl_longest_ub path routes ⟨none, -1⟩ rt' hmem' hm'
      rw [heq] at hub
      have : (rt'.pattern.length : Int) ≤ (rt.pattern.length : Int) := hub
      exact_mod_cast this

/-- Witness for claim C3: on a router registering `/users/*` (handler 1)
and `/users/:id` (handler 2), resolving `/users/42` reports a match, and
the reported handler and bindings come from a registered matching route
of maximal pattern length. -/
theorem MatchRoute_selects_longest_witness :
    (MatchRoute [(mkRoute "/users/*" (1 : Nat) [] []).getD ⟨1, "", [], [], [], []⟩,
       (mkRoute "/users/:id" (2 : Nat) [] []).getD ⟨2, "", [], [], [], []⟩]
       "/users/42").isSome = true :=
  (MatchRoute_selects_longest
      [(mkRoute "/users/*" (1 : Nat) [] []).getD ⟨1, "", [], [], [], []⟩,
       (mkRoute "/users/:id" (2 : Nat) [] []).getD ⟨2, "", [], [], [], []⟩]
      "/users/42").1
    ((mkRoute "/users/:id" (2 : Nat) [] []).getD ⟨2, "", [], [], [], []⟩)
    (by simp) (by decide)

/-- Claim C2, counterexample.  With `/docs/:id` (handler 1) and
`/docs/new` (handler 2) registered — one and the same router state —
the two possible iteration orders of the route map make `MatchRoute`
return different handlers *and* different parameter bindings for the
same input `/docs/new`.  Go randomises map iteration order between
loops, so repeated calls on the same router state need not agree. -/
theorem MatchRoute_order_dependent_cex :
    ((mkRoute "/docs/:id" (1 : Nat) [] []).bind (fun rId =>
      (mkRoute "/docs/new" (2 : Nat) [] []).map (fun rNew =>
        MatchRoute [rId, rNew] "/docs/new")))
      = some (some (1, [("id", "new")]))
    ∧ ((mkRoute "/docs/:id" (1 : Nat) [] []).bind (fun rId =>
      (mkRoute "/docs/new" (2 : Nat) [] []).map (fun rNew =>
        MatchRoute [rNew, rId] "/docs/new")))
      = some (some (2, []))
    ∧ (some ((1 : Nat), [("id", "new")]) : Option (Nat × List (String × String)))
        ≠ some (2, []) := by decide

/-- Claim C2, amended: `MatchRoute` is independent of the map iteration
order — hence deterministic across repeated calls on the same router
state — provided no two routes that match the path have pattern strings
of equal length.  (The counterexample shows the proviso is necessary.) -/
theorem MatchRoute_deterministic_of_distinct_lengths {α : Type}
    (l₁ l₂ : List (Route α)) (path : String) (hperm : l₁.Perm l₂)
    (hnd : ((l₁.filter (matchesR path)).map (fun rt => rt.pattern.length)).Nodup) :
    MatchRoute l₁ path = MatchRoute l₂ path := by
  by_cases hex : ∃ rt ∈ l₁, matchesR path rt = true
  · obtain ⟨mx, hmem, hmxm, hmax⟩ := exists_max_matching path l₁ hex
    obtain ⟨caps, hcaps⟩ := Option.isSome_iff_exists.mp (by simpa [matchesR] using hmxm)
    have hnd₂ : ((l₂.filter (matchesR path)).map (fun rt => rt.pattern.length)).Nodup :=
      (((hperm.filter (matchesR path)).map (fun rt => rt.pattern.length)).nodup_iff).mp hnd
    rw [MatchRoute_eq_of_max l₁ path mx caps hmem hcaps hmax hnd,
      MatchRoute_eq_of_max l₂ path mx caps (hperm.mem_iff.mp hmem) hcaps
        (fun rt h hm => hmax rt (hperm.mem_iff.mpr h) hm) hnd₂]
  · have hnone : ∀ rt ∈ l₁, matchesR path rt = false := by
      intro rt h
      by_contra hc
      exact hex ⟨rt, h, by simpa using hc⟩
    rw [MatchRoute_eq_none l₁ path hnone,
      MatchRoute_eq_none l₂ path (fun rt h => hnone rt (hperm.mem_iff.mpr h))]

/-- Witness for claim C2's amended theorem: `/users/*` (pattern length
8) and `/users/:id` (pattern length 10) both match `/users/42` with
distinct pattern lengths, and the two iteration orders agree. -/
theorem MatchRoute_deterministic_witness :
    MatchRoute [(mkRoute "/users/*" (1 : Nat) [] []).getD ⟨1, "", [], [], [], []⟩,
        (mkRoute "/users/:id" (2 : Nat) [] []).getD ⟨2, "", [], [], [], []⟩]
        "/users/42"
      = MatchRoute [(mkRoute "/users/:id" (2 : Nat) [] []).getD ⟨2, "", [], [], [], []⟩,
          (mkRoute "/users/*" (1 : Nat) [] []).getD ⟨1, "", [], [], [], []⟩]
          "/users/42" :=
  MatchRoute_deterministic_of_distinct_lengths _ _ "/users/42"
    (List.Perm.swap _ _ [])
    (by decide)

/-! ### Claims C8 and C9: the SSE broadcaster

Association-list lemmas first (`mapGet`/`mapSet`/`mapErase` interaction
and `nodupKeys` preservation), then the queue-bounding fold lemma for
`Broadcast`, then the claim theorems. -/

theorem mapGet_eq_none_of_all {β : Type} (l : List (String × β)) (k : String)
    (h : l.all (fun q => !(q.1 == k)) = true) : mapGet l k = none := by
  induction l with
  | nil => rfl
  | cons p t ih =>
    simp only [List.all_cons, Bool.and_eq_true, Bool.not_eq_true', beq_eq_false_iff_ne] at h
    unfold mapGet
    rw [if_neg h.1]
    exact ih (by simpa [List.all_eq_true, beq_eq_false_iff_ne] using h.2)

theorem mapGet_mapSet_self {β : Type} (l : List (String × β)) (k : String) (v : β) :
    mapGet (mapSet l k v) k = some v := by
  induction l with
  | nil => simp [mapSet, mapGet]
  | cons p t ih =>
    by_cases h : p.1 = k
    · simp [mapSet, h, mapGet]
    · simp [mapSet, h, mapGet, ih]

theorem mapGet_mapErase_self {β : Type} (l : List (String × β)) (k : String)
    (hnd : nodupKeys l = true) : mapGet (mapErase l k) k = none := by
  induction l with
  | nil => rfl
  | cons p t ih =>
    simp only [nodupKeys, Bool.and_eq_true, Bool.not_eq_true', List.any_eq_false] at hnd
    by_cases h : p.1 = k
    · rw [mapErase, if_pos h]
      refine mapGet_eq_none_of_all t k ?_
      simp only [List.all_eq_true, Bool.not_eq_true']
      intro q hq
      rw [beq_eq_false_iff_ne]
      intro hk
      exact hnd.1 q hq (by rw [beq_iff_eq, hk, h])
    · rw [mapErase, if_neg h]
      unfold mapGet
      rw [if_neg h]
      exact ih hnd.2

theorem mapGet_map_value {β γ : Type} (l : List (String × β)) (k : String) (g : β → γ) :
    mapGet (l.map (fun p => (p.1, g p.2))) k = (mapGet l k).map g := by
  induction l with
  | nil => rfl
  | cons p t ih =>
    by_cases h : p.1 = k
    · simp [mapGet, h]
    · simp [mapGet, h, ih]

theorem mapSet_any_key {β : Type} (l : List (String × β)) (k a : String) (v : β) :
    (mapSet l k v).any (fun q => q.1 == a)
      = (l.any (fun q => q.1 == a) || (k == a)) := by
  induction l with
  | nil => simp [mapSet]
  | cons p t ih =>
    by_cases h : p.1 = k
    · subst h
      simp only [mapSet, if_pos rfl, List.any_cons]
      cases hk : (p.1 == a) <;> cases ht : t.any (fun q => q.1 == a) <;> simp [hk, ht]
    · simp only [mapSet, if_neg h, List.any_cons, ih]
      cases hk : (p.1 == a) <;> simp [hk]

theorem nodupKeys_mapSet {β : Type} (l : List (String × β)) (k : String) (v : β)
    (h : nodupKeys l = true) : nodupKeys (mapSet l k v) = true := by
  induction l with
  | nil => simp [mapSet, nodupKeys]
  | cons p t ih =>
    simp only [nodupKeys, Bool.and_eq_true, Bool.not_eq_true'] at h
    by_cases hp : p.1 = k
    · simp only [mapSet, if_pos hp, nodupKeys, Bool.and_eq_true, Bool.not_eq_true']
      refine ⟨?_, h.2⟩
      rw [← hp]
      exact h.1
    · simp only [mapSet, if_neg hp, nodupKeys, Bool.and_eq_true, Bool.not_eq_true']
      refine ⟨?_, ih h.2⟩
      rw [mapSet_any_key t k p.1 v, h.1]
      simp only [Bool.false_or, beq_eq_false_iff_ne]
      exact fun hk => hp hk.symm

theorem any_mapErase_false {β : Type} (l : List (String × β)) (k : String)
    (pred : String × β → Bool) (h : l.any pred = false) :
    (mapErase l k).any pred = false := by
  induction l with
  | nil => rfl
  | cons p t ih =>
    simp only [List.any_cons, Bool.or_eq_false_iff] at h
    by_cases hp : p.1 = k
    · rw [mapErase, if_pos hp]
      exact h.2
    · rw [mapErase, if_neg hp]
      simp only [List.any_cons, Bool.or_eq_false_iff]
      exact ⟨h.1, ih h.2⟩

theorem nodupKeys_mapErase {β : Type} (l : List (String × β)) (k : String)
    (h : nodupKeys l = true) : nodupKeys (mapErase l k) = true := by
  induction l with
  | nil => rfl
  | cons p t ih =>
    simp only [nodupKeys, Bool.and_eq_true, Bool.not_eq_true'] at h
    by_cases hp : p.1 = k
    · rw [mapErase, if_pos hp]
      exact h.2
    · rw [mapErase, if_neg hp]
      simp only [nodupKeys, Bool.and_eq_true, Bool.not_eq_true']
      exact ⟨any_mapErase_false t k _ h.1, ih h.2⟩

theorem any_key_map_value {β γ : Type} (l : List (String × β)) (g : β → γ) (a : String) :
    (l.map (fun p => (p.1, g p.2))).any (fun q => q.1 == a)
      = l.any (fun q => q.1 == a) := by
  induction l with
  | nil => rfl
  | cons p t ih => simp [List.any_cons, ih]

theorem nodupKeys_map_value {β γ : Type} (l : List (String × β)) (g : β → γ)
    (h : nodupKeys l = true) :
    nodupKeys (l.map (fun p => (p.1, g p.2))) = true := by
  induction l with
  | nil => rfl
  | cons p t ih =>
    simp only [nodupKeys, Bool.and_eq_true, Bool.not_eq_true'] at h
    simp only [List.map_cons, nodupKeys, Bool.and_eq_true, Bool.not_eq_true']
    refine ⟨?_, ih h.2⟩
    rw [any_key_map_value]
    exact h.1

theorem mapSet_all {β : Type} (l : List (String × β)) (k : String) (v : β)
    (pred : String × β → Bool) (hall : l.all pred = true) (hv : pred (k, v) = true) :
    (mapSet l k v).all pred = true := by
  induction l with
  | nil => simpa [mapSet]
  | cons p t ih =>
    simp only [List.all_cons, Bool.and_eq_true] at hall
    by_cases hp : p.1 = k
    · simp only [mapSet, if_pos hp, List.all_cons, Bool.and_eq_true]
      exact ⟨hv, hall.2⟩
    · simp only [mapSet, if_neg hp, List.all_cons, Bool.and_eq_true]
      exact ⟨hall.1, ih hall.2⟩

theorem mapErase_all {β : Type} (l : List (String × β)) (k : String)
    (pred : String × β → Bool) (hall : l.all pred = true) :
    (mapErase l k).all pred = true := by
  induction l with
  | nil => rfl
  | cons p t ih =>
    simp only [List.all_cons, Bool.and_eq_true] at hall
    by_cases hp : p.1 = k
    · rw [mapErase, if_pos hp]
      exact hall.2
    · rw [mapErase, if_neg hp]
      simp only [List.all_cons, Bool.and_eq_true]
      exact ⟨hall.1, ih hall.2⟩

theorem all_of_mapGet {β : Type} (l : List (String × β)) (k : String) (v : β)
    (pred : String × β → Bool) (hall : l.all pred = true)
    (hget : mapGet l k = some v) : pred (k, v) = true := by
  induction l with
  | nil => cases hget
  | cons p t ih =>
    simp only [List.all_cons, Bool.and_eq_true] at hall
    unfold mapGet at hget
    by_cases hp : p.1 = k
    · rw [if_pos hp] at hget
      cases hget
      rw [← hp]
      exact hall.1
    · rw [if_neg hp] at hget
      exact ih hall.2 hget

theorem mapSet_isEmpty {β : Type} (l : List (String × β)) (k : String) (v : β) :
    (mapSet l k v).isEmpty = false := by
  cases l with
  | nil => rfl
  | cons p t =>
    simp only [mapSet]
    split <;> rfl

/-- `AddClient` preserves the registry invariant. -/
theorem wfSSE_AddClient (m : SSEState) (d c : String) (hw : wfSSE m = true) :
    wfSSE (AddClient m d c) = true := by
  simp only [wfSSE, Bool.and_eq_true] at hw ⊢
  unfold AddClient
  refine ⟨nodupKeys_mapSet _ _ _ hw.1, mapSet_all _ _ _ _ hw.2 ?_⟩
  simp only [Bool.and_eq_true, Bool.not_eq_true']
  refine ⟨mapSet_isEmpty _ _ _, ?_⟩
  cases hg : mapGet m d with
  | none => rfl
  | some cl =>
    have hcl := all_of_mapGet _ _ _ _ hw.2 hg
    simp only [Bool.and_eq_true] at hcl
    simp only [hg, Option.getD_some]
    exact nodupKeys_mapSet _ _ _ hcl.2

/-- `RemoveClient` preserves the registry invariant. -/
theorem wfSSE_RemoveClient (m : SSEState) (d c : String) (hw : wfSSE m = true) :
    wfSSE (RemoveClient m d c) = true := by
  cases hg : mapGet m d with
  | none => simpa only [RemoveClient, hg] using hw
  | some docClients =>
    cases hgc : mapGet docClients c with
    | none => simpa only [RemoveClient, hg, hgc] using hw
    | some q =>
      have hcl := all_of_mapGet _ _ _ _ (by
        simp only [wfSSE, Bool.and_eq_true] at hw
        exact hw.2) hg
      simp only [Bool.and_eq_true, Bool.not_eq_true'] at hcl
      simp only [RemoveClient, hg, hgc]
      by_cases hlen : (mapErase docClients c).length = 0
      · simp only [if_pos hlen]
        simp only [wfSSE, Bool.and_eq_true] at hw ⊢
        exact ⟨nodupKeys_mapErase _ _ hw.1, mapErase_all _ _ _ hw.2⟩
      · simp only [if_neg hlen]
        simp only [wfSSE, Bool.and_eq_true] at hw ⊢
        refine ⟨nodupKeys_mapSet _ _ _ hw.1, mapSet_all _ _ _ _ hw.2 ?_⟩
        simp only [Bool.and_eq_true, Bool.not_eq_true']
        refine ⟨?_, nodupKeys_mapErase _ _ hcl.2⟩
        cases hM : mapErase docClients c with
        | nil => exact absurd (by rw [hM]; rfl) hlen
        | cons x xs => rfl

/-- `Broadcast` preserves the registry invariant. -/
theorem wfSSE_Broadcast (m : SSEState) (d msg : String) (hw : wfSSE m = true) :
    wfSSE (Broadcast m d msg) = true := by
  cases hg : mapGet m d with
  | none => simpa only [Broadcast, hg] using hw
  | some docClients =>
    have hcl := all_of_mapGet _ _ _ _ (by
      simp only [wfSSE, Bool.and_eq_true] at hw
      exact hw.2) hg
    simp only [Bool.and_eq_true, Bool.not_eq_true'] at hcl
    simp only [Broadcast, hg]
    simp only [wfSSE, Bool.and_eq_true] at hw ⊢
    refine ⟨nodupKeys_mapSet _ _ _ hw.1, mapSet_all _ _ _ _ hw.2 ?_⟩
    simp only [Bool.and_eq_true, Bool.not_eq_true']
    refine ⟨?_, nodupKeys_map_value docClients (fun q => trySend q msg) hcl.2⟩
    cases docClients with
    | nil => simp at hcl
    | cons x xs => rfl

/-- After `RemoveClient`, the removed client is no longer registered. -/
theorem clientQueue_RemoveClient_self (m : SSEState) (d c : String)
    (hw : wfSSE m = true) : clientQueue (RemoveClient m d c) d c = none := by
  simp only [wfSSE, Bool.and_eq_true] at hw
  cases hg : mapGet m d with
  | none => simp [RemoveClient, clientQueue, hg]
  | some docClients =>
    cases hgc : mapGet docClients c with
    | none => simp [RemoveClient, clientQueue, hg, hgc]
    | some q =>
      have hndc : nodupKeys docClients = true := by
        have := all_of_mapGet _ _ _ _ hw.2 hg
        simp only [Bool.and_eq_true] at this
        exact this.2
      by_cases hlen : (mapErase docClients c).length = 0
      · simp only [RemoveClient, hg, hgc, if_pos hlen, clientQueue,
          mapGet_mapErase_self m d hw.1]
      · simp only [RemoveClient, hg, hgc, if_neg hlen, clientQueue,
          mapGet_mapSet_self, mapGet_mapErase_self docClients c hndc]

/-- `Broadcast` only touches clients registered under the topic: an
absent client stays absent. -/
theorem clientQueue_Broadcast_none (m : SSEState) (d c msg : String)
    (h : clientQueue m d c = none) :
    clientQueue (Broadcast m d msg) d c = none := by
  cases hg : mapGet m d with
  | none => simpa only [Broadcast, hg] using h
  | some docClients =>
    simp only [clientQueue, hg] at h
    simp only [Broadcast, hg, clientQueue, mapGet_mapSet_self]
    exact (mapGet_map_value docClients c (fun q => trySend q msg)).trans
      (by rw [h]; rfl)

/-- Removing the topic's last client removes the topic entry. -/
theorem topic_removed_when_last (m : SSEState) (d c : String) (q : List String)
    (hw : wfSSE m = true) (hg : mapGet m d = some [(c, q)]) :
    mapGet (RemoveClient m d c) d = none := by
  simp only [wfSSE, Bool.and_eq_true] at hw
  have h1 : mapGet [(c, q)] c = some q := by
    unfold mapGet
    rw [if_pos rfl]
  have h2 : mapErase [(c, q)] c = [] := by
    unfold mapErase
    rw [if_pos rfl]
  simp only [RemoveClient, hg, h1, h2, List.length_nil]
  simp only [if_true]
  exact mapGet_mapErase_self m d hw.1

/-- The non-blocking fold: sending a message sequence into a queue never
overflows `chanCap`; starting from a queue with room, the queue ends up
holding the first messages up to capacity, the rest being dropped. -/
theorem foldl_trySend (msgs : List String) :
    ∀ q : List String, q.length ≤ chanCap →
      List.foldl trySend q msgs = q ++ msgs.take (chanCap - q.length) := by
  induction msgs with
  | nil => intro q _; simp
  | cons m t ih =>
    intro q hq
    rw [List.foldl_cons]
    by_cases hlt : q.length < chanCap
    · rw [show trySend q m = q ++ [m] from by simp [trySend, hlt]]
      rw [ih (q ++ [m]) (by simp only [List.length_append, List.length_singleton]; omega)]
      have hsub : chanCap - q.length = (chanCap - (q ++ [m]).length) + 1 := by
        simp only [List.length_append, List.length_singleton]
        omega
      rw [hsub, List.take_succ_cons]
      simp
    · rw [show trySend q m = q from by simp [trySend, hlt]]
      have h0 : chanCap - q.length = 0 := by omega
      rw [ih q hq, h0]
      simp

/-- `Broadcast` on a single-topic, single-client registry. -/
theorem Broadcast_singleton (d c : String) (q : List String) (m : String) :
    Broadcast [(d, [(c, q)])] d m = [(d, [(c, trySend q m)])] := by
  simp [Broadcast, mapGet, mapSet]

/-- `BroadcastList` on a single-topic, single-client registry folds
`trySend` over the client's queue. -/
theorem BroadcastList_singleton (d c : String) (msgs : List String) :
    ∀ q : List String,
      BroadcastList [(d, [(c, q)])] d msgs
        = [(d, [(c, List.foldl trySend q msgs)])] := by
  induction msgs with
  | nil => intro q; rfl
  | cons m t ih =>
    intro q
    simp only [BroadcastList, List.foldl_cons] at ih ⊢
    rw [Broadcast_singleton]
    exact ih (trySend q m)

/-- Claim C8: `Broadcast` performs a non-blocking enqueue per subscriber
on a fixed-capacity queue (capacity `chanCap = 5`): a full queue is left
unchanged (the message is dropped for that subscriber only, the other
subscribers of the registry still receiving their sends), a non-full
queue receives the message at the back, and publishing `N > 5` messages
to a fresh, non-draining subscriber leaves exactly the oldest 5 messages
queued, the excess being dropped. -/
theorem broadcast_never_blocks (msgs : List String) (d c : String)
    (hn : chanCap < msgs.length) :
    clientQueue (BroadcastList (AddClient newSSEManager d c) d msgs) d c
        = some (msgs.take chanCap)
    ∧ (msgs.take chanCap).length = chanCap
    ∧ (∀ (q : List String) (m : String), chanCap ≤ q.length → trySend q m = q)
    ∧ (∀ (q : List String) (m : String), q.length < chanCap → trySend q m = q ++ [m])
    ∧ (∀ (d' c1 c2 m : String) (q1 q2 : List String),
        Broadcast [(d', [(c1, q1), (c2, q2)])] d' m
          = [(d', [(c1, trySend q1 m), (c2, trySend q2 m)])]) := by
  refine ⟨?_, ?_, ?_, ?_, ?_⟩
  · have hadd : AddClient newSSEManager d c = [(d, [(c, [])])] := rfl
    rw [hadd, BroadcastList_singleton d c msgs []]
    rw [foldl_trySend msgs [] (by simp [chanCap])]
    simp [clientQueue, mapGet]
  · simp only [List.length_take]
    omega
  · intro q m h
    simp only [trySend]
    rw [if_neg (by omega)]
  · intro q m h
    simp only [trySend]
    rw [if_pos h]
  · intro d' c1 c2 m q1 q2
    simp [Broadcast, mapGet, mapSet]

/-- Witness for claim C8: six messages published to a fresh subscriber
of capacity 5 leave exactly the oldest five queued. -/
theorem broadcast_never_blocks_witness :
    clientQueue (BroadcastList (AddClient newSSEManager "doc1" "c1") "doc1"
        ["m1", "m2", "m3", "m4", "m5", "m6"]) "doc1" "c1"
      = some (["m1", "m2", "m3", "m4", "m5", "m6"].take chanCap) :=
  (broadcast_never_blocks ["m1", "m2", "m3", "m4", "m5", "m6"] "doc1" "c1"
    (by decide)).1

/-- Claim C9: on a well-formed registry (distinct topic keys, every
present topic holding a non-empty client map with distinct client keys),
`AddClient`, `RemoveClient` and `Broadcast` preserve the invariant;
after `RemoveClient` the removed subscriber is no longer registered, so
a subsequent `Broadcast` to that topic no longer references it (and
leaves it unregistered); and removing the topic's last subscriber
removes the topic entry itself. -/
theorem sse_registry_invariant (m : SSEState) (d c msg : String) (q : List String)
    (hw : wfSSE m = true) :
    wfSSE (AddClient m d c) = true
    ∧ wfSSE (RemoveClient m d c) = true
    ∧ wfSSE (Broadcast m d msg) = true
    ∧ clientQueue (RemoveClient m d c) d c = none
    ∧ clientQueue (Broadcast (RemoveClient m d c) d msg) d c = none
    ∧ (mapGet m d = some [(c, q)] → mapGet (RemoveClient m d c) d = none) :=
  ⟨wfSSE_AddClient m d c hw, wfSSE_RemoveClient m d c hw, wfSSE_Broadcast m d msg hw,
   clientQueue_RemoveClient_self m d c hw,
   clientQueue_Broadcast_none _ d c msg (clientQueue_RemoveClient_self m d c hw),
   fun hg => topic_removed_when_last m d c q hw hg⟩

/-- A small well-formed registry used by the C9 witness. -/
def demoSSE : SSEState := [("doc1", [("c1", []), ("c2", ["x"])])]

/-- Witness for claim C9, on a registry with one topic and two
subscribers. -/
theorem sse_registry_invariant_witness :
    wfSSE (AddClient demoSSE "doc1" "c1") = true
    ∧ wfSSE (RemoveClient demoSSE "doc1" "c1") = true
    ∧ wfSSE (Broadcast demoSSE "doc1" "m") = true
    ∧ clientQueue (RemoveClient demoSSE "doc1" "c1") "doc1" "c1" = none
    ∧ clientQueue (Broadcast (RemoveClient demoSSE "doc1" "c1") "doc1" "m")
        "doc1" "c1" = none
    ∧ (mapGet demoSSE "doc1" = some [("c1", [])] →
        mapGet (RemoveClient demoSSE "doc1" "c1") "doc1" = none) :=
  sse_registry_invariant demoSSE "doc1" "c1" "m" [] (by decide)

end GoSwift
